import Mathlib

/-!
Shallow embedding of the fraud-detector training scripts
(ml_training_scripts: train_model.py, train_custom_features.py,
export_onnx.py, explore_data.py) and proofs about them.

Numbers that the scripts hold as floats are embedded as rationals; numpy's
float `%` and `astype(int)` are embedded explicitly (`npFloorMod`,
`truncInt`).  Library routines that the scripts call (numpy's random
generator, sklearn's `train_test_split`, imblearn's `SMOTE.fit_resample`)
are not part of the repository; they are modelled from the spec and from
the libraries' documented contracts, and each such definition says so in
its doc comment.
-/

namespace FraudDetector

/-- `RANDOM_STATE = 42` (train_custom_features.py line 25). -/
def RANDOM_STATE : ℕ := 42

/-- Modelled from the spec: numpy's seeded pseudo-random generator.
`np.random.seed(k)` makes every later draw a pure function of `k`; the
actual generator (MT19937) is replaced by a linear-congruential step, which
preserves the only property the scripts rely on: the stream is a
deterministic function of the seed. -/
def rngNext (s : ℕ) : ℕ := (1103515245 * s + 12345) % 2 ^ 31

/-- Modelled from the spec: `np.random.seed k` resets the generator state
to a pure function of `k`, discarding the previous state. -/
def npSeed (k : ℕ) : ℕ := k

/-- The `i`-th raw draw from generator state `s` (0-indexed). -/
def rngValue (s : ℕ) (i : ℕ) : ℕ := rngNext^[i + 1] s

/-- Modelled from the spec: `np.random.random()` turns a raw draw into a
float in `[0, 1)`. -/
def randomFloat (v : ℕ) : ℚ := (v : ℚ) / 2 ^ 31

/-- Modelled from the spec: `np.random.randint(0, 1000)` produces an
integer in `[0, 999]`. -/
def randint1000 (v : ℕ) : ℕ := v % 1000

/-- A raw row of the Kaggle CSV as `train_custom_features.py` reads it:
the fields `Time`, `Amount`, `Class`, and the remaining columns (V1..V28),
which `engineer_features` never touches. -/
structure RawRow where
  time : ℚ
  amount : ℚ
  cls : ℕ
  vs : List ℚ
deriving DecidableEq

/-- The 7 engineered features of one row
(train_custom_features.engineer_features, lines 52-93). -/
structure FeatRow where
  normalized_amount : ℚ
  hour_of_day : ℤ
  day_of_week : ℤ
  is_weekend : ℚ
  payment_method_encoded : ℚ
  merchant_hash : ℕ
  location_hash : ℕ
deriving DecidableEq

/-- numpy's float `%` with a positive divisor: `x - m * ⌊x / m⌋`. -/
def npFloorMod (x m : ℚ) : ℚ := x - m * (⌊x / m⌋ : ℤ)

/-- numpy's `astype(int)` on a float: truncation toward zero. -/
def truncInt (x : ℚ) : ℤ := if 0 ≤ x then ⌊x⌋ else ⌈x⌉

/-- `assign_payment` (train_custom_features.py lines 73-85): the simulated
payment-method code of a row, chosen from the row's `Class` field and the
row's pre-drawn random float. -/
def assign_payment (row : RawRow) (prob : ℚ) : ℚ :=
  if row.cls = 1 then
    if prob < 3 / 10 then 0
    else if prob < 5 / 10 then 1
    else if prob < 7 / 10 then 2
    else 3
  else
    if prob < 5 / 10 then 0
    else if prob < 85 / 100 then 1
    else if prob < 95 / 100 then 2
    else 3

/-- The per-row body of `engineer_features` (lines 52-93): the row's 7
features, given the row's random draws (`prob` the row's entry of
`payment_probs`, `mhRaw`/`lhRaw` the row's raw draws for the two
`np.random.randint(0, 1000, len(df))` calls, bounded here by
`randint1000`). -/
def engineerRow (r : RawRow) (prob : ℚ) (mhRaw lhRaw : ℕ) : FeatRow :=
  let hour := truncInt (npFloorMod (r.time / 3600) 24)
  let day := truncInt (npFloorMod (r.time / 86400) 7)
  { normalized_amount := r.amount / 10000
    hour_of_day := hour
    day_of_week := day
    is_weekend := if 5 ≤ day then (1 : ℚ) else 0
    payment_method_encoded := assign_payment r prob
    merchant_hash := randint1000 mhRaw
    location_hash := randint1000 lhRaw }

/-- `engineer_features` (train_custom_features.py lines 37-104): reseeds the
global generator with `RANDOM_STATE` (line 70), draws `payment_probs`
(one float per row), then the merchant and location hash streams (one
integer per row each), and builds the feature table and the label column
`y = df['Class']`.  `state0` is the ambient generator state on entry,
which the reseed on line 70 discards. -/
def engineer_features (df : List RawRow) (state0 : ℕ) : List FeatRow × List ℕ :=
  let _ := state0
  let s1 := npSeed RANDOM_STATE
  let s2 := rngNext^[df.length] s1
  let s3 := rngNext^[df.length] s2
  let X := df.enum.map fun p =>
    engineerRow p.2 (randomFloat (rngValue s1 p.1)) (rngValue s2 p.1) (rngValue s3 p.1)
  (X, df.map (·.cls))

/-! ### Range lemmas for the float modulus embedding -/

theorem npFloorMod_nonneg (x : ℚ) {m : ℚ} (hm : 0 < m) : 0 ≤ npFloorMod x m := by
  unfold npFloorMod
  have h1 : m * (⌊x / m⌋ : ℚ) ≤ m * (x / m) :=
    mul_le_mul_of_nonneg_left (Int.floor_le _) hm.le
  have h2 : m * (x / m) = x := by
    rw [mul_comm, div_mul_cancel₀ _ (ne_of_gt hm)]
  linarith

theorem npFloorMod_lt (x : ℚ) {m : ℚ} (hm : 0 < m) : npFloorMod x m < m := by
  unfold npFloorMod
  have h1 : x / m < (⌊x / m⌋ : ℚ) + 1 := Int.lt_floor_add_one _
  have h2 : m * (x / m) = x := by
    rw [mul_comm, div_mul_cancel₀ _ (ne_of_gt hm)]
  nlinarith

theorem truncInt_of_nonneg {x : ℚ} (h : 0 ≤ x) : truncInt x = ⌊x⌋ := if_pos h

theorem truncInt_npFloorMod_bounds (x : ℚ) {m : ℤ} (hm : 0 < (m : ℚ)) :
    0 ≤ truncInt (npFloorMod x m) ∧ truncInt (npFloorMod x m) ≤ m - 1 := by
  have h0 : 0 ≤ npFloorMod x m := npFloorMod_nonneg x hm
  have h1 : npFloorMod x m < m := npFloorMod_lt x hm
  rw [truncInt_of_nonneg h0]
  constructor
  · exact Int.le_floor.2 (by exact_mod_cast h0)
  · have : ⌊npFloorMod x m⌋ < m := Int.floor_lt.2 (by exact_mod_cast h1)
    omega

/-- C8: for every input row with nonnegative `Time`, the engineered features
satisfy: `hour_of_day ∈ [0, 23]`, `day_of_week ∈ [0, 6]`, `is_weekend` is
exactly 1 when `day_of_week ≥ 5` and exactly 0 otherwise,
`payment_method_encoded ∈ {0, 1, 2, 3}`, and the merchant and location
hashes lie in `[0, 999]`. -/
theorem engineerRow_invariants (r : RawRow) (prob : ℚ) (mhRaw lhRaw : ℕ)
    (ht : 0 ≤ r.time) :
    0 ≤ (engineerRow r prob mhRaw lhRaw).hour_of_day ∧
    (engineerRow r prob mhRaw lhRaw).hour_of_day ≤ 23 ∧
    0 ≤ (engineerRow r prob mhRaw lhRaw).day_of_week ∧
    (engineerRow r prob mhRaw lhRaw).day_of_week ≤ 6 ∧
    (5 ≤ (engineerRow r prob mhRaw lhRaw).day_of_week →
      (engineerRow r prob mhRaw lhRaw).is_weekend = 1) ∧
    ((engineerRow r prob mhRaw lhRaw).day_of_week < 5 →
      (engineerRow r prob mhRaw lhRaw).is_weekend = 0) ∧
    ((engineerRow r prob mhRaw lhRaw).payment_method_encoded = 0 ∨
      (engineerRow r prob mhRaw lhRaw).payment_method_encoded = 1 ∨
      (engineerRow r prob mhRaw lhRaw).payment_method_encoded = 2 ∨
      (engineerRow r prob mhRaw lhRaw).payment_method_encoded = 3) ∧
    (engineerRow r prob mhRaw lhRaw).merchant_hash ≤ 999 ∧
    (engineerRow r prob mhRaw lhRaw).location_hash ≤ 999 := by
  have hhour := truncInt_npFloorMod_bounds (r.time / 3600) (m := 24) (by norm_num)
  have hday := truncInt_npFloorMod_bounds (r.time / 86400) (m := 7) (by norm_num)
  have hmh : randint1000 mhRaw ≤ 999 :=
    Nat.lt_succ_iff.1 (Nat.mod_lt _ (by norm_num))
  have hlh : randint1000 lhRaw ≤ 999 :=
    Nat.lt_succ_iff.1 (Nat.mod_lt _ (by norm_num))
  refine ⟨?_, ?_, ?_, ?_, ?_, ?_, ?_, hmh, hlh⟩
  · exact hhour.1
  · exact le_trans hhour.2 (by norm_num)
  · exact hday.1
  · exact le_trans hday.2 (by norm_num)
  · intro h
    simp only [engineerRow] at h ⊢
    rw [if_pos h]
  · intro h
    simp only [engineerRow] at h ⊢
    rw [if_neg (not_le.2 h)]
  · simp only [engineerRow, assign_payment]
    split_ifs <;> simp

/-- C8 witness: the invariants instantiated at a concrete row. -/
theorem engineerRow_invariants_witness :
    0 ≤ (RawRow.mk 0 100 0 []).time ∧
    0 ≤ (engineerRow (RawRow.mk 0 100 0 []) 0 0 0).hour_of_day := by
  refine ⟨by norm_num, ?_⟩
  exact (engineerRow_invariants (RawRow.mk 0 100 0 []) 0 0 0 (by norm_num)).1

/-- C2 counterexample: two rows that agree on `Time` and `Amount` but differ
on `Class` receive different engineered features — `assign_payment` reads the
row's `Class` field, so the feature builder does not depend on `Time` and
`Amount` alone. -/
theorem engineer_features_reads_class_label :
    (RawRow.mk 0 100 0 []).time = (RawRow.mk 0 100 1 []).time ∧
    (RawRow.mk 0 100 0 []).amount = (RawRow.mk 0 100 1 []).amount ∧
    (engineer_features [RawRow.mk 0 100 0 []] 0).1 ≠
      (engineer_features [RawRow.mk 0 100 1 []] 0).1 := by
  refine ⟨rfl, rfl, ?_⟩
  with_unfolding_all decide

/-- C2 amended: the engineered features of a row are determined by its
`Time`, `Amount` and `Class` fields together with the row's random draws;
the remaining columns (V1..V28) are irrelevant. -/
theorem engineerRow_depends_only_on_time_amount_class
    (r1 r2 : RawRow) (prob : ℚ) (mhRaw lhRaw : ℕ)
    (htime : r1.time = r2.time) (hamount : r1.amount = r2.amount)
    (hcls : r1.cls = r2.cls) :
    engineerRow r1 prob mhRaw lhRaw = engineerRow r2 prob mhRaw lhRaw := by
  unfold engineerRow assign_payment
  rw [htime, hamount, hcls]

/-- C2 amended witness: rows differing only in the untouched columns get
identical features. -/
theorem engineerRow_depends_only_on_time_amount_class_witness :
    engineerRow (RawRow.mk 0 100 0 [5]) 0 0 0 =
      engineerRow (RawRow.mk 0 100 0 []) 0 0 0 :=
  engineerRow_depends_only_on_time_amount_class _ _ _ _ _ rfl rfl rfl

/-- C10: `engineer_features` reseeds the generator with `RANDOM_STATE`
before any draw, so its output does not depend on the ambient generator
state: two runs on the same dataframe produce identical feature tables and
labels. -/
theorem engineer_features_deterministic (df : List RawRow) (s0 s1 : ℕ) :
    engineer_features df s0 = engineer_features df s1 := rfl

/-! ### The export pipeline as a trace of events (export_onnx.py,
train_custom_features.export_to_onnx) -/

/-- The observable steps of the export pipelines.  `validate` is the
numeric-parity check of the ONNX predictions against the original model's
(`test_onnx_model` in export_onnx.py, the inline check in
`export_to_onnx`); `persist` is the write of the serialized ONNX model to
disk. -/
inductive ExportEvent where
  | loadModel
  | defineSchema
  | convert
  | validate
  | warn
  | persist
  | document
  | summarize
deriving DecidableEq

/-- `export_onnx.main` (lines 226-249) as the trace of steps it runs.
`testOk` is the Boolean returned by `test_onnx_model`; when it is false the
script prints a warning but still continues to save the model. -/
def export_onnx_main_trace (testOk : Bool) : List ExportEvent :=
  [ExportEvent.loadModel, ExportEvent.defineSchema, ExportEvent.convert,
    ExportEvent.validate] ++
  (if testOk then [] else [ExportEvent.warn]) ++
  [ExportEvent.persist, ExportEvent.document, ExportEvent.summarize]

/-- `train_custom_features.export_to_onnx` (lines 189-238) as the trace of
steps it runs: convert, compare predictions, then write the file. -/
def export_to_onnx_trace : List ExportEvent :=
  [ExportEvent.convert, ExportEvent.validate, ExportEvent.persist]

/-- `checkValidatedBefore seen events` is true when along `events` every
`persist` is preceded by a `validate` (or `seen` records one already). -/
def checkValidatedBefore (seen : Bool) : List ExportEvent → Bool
  | [] => true
  | ExportEvent.validate :: rest => checkValidatedBefore true rest
  | ExportEvent.persist :: rest => seen && checkValidatedBefore seen rest
  | _ :: rest => checkValidatedBefore seen rest

theorem checkValidatedBefore_sound (l : List ExportEvent) (seen : Bool)
    (h : checkValidatedBefore seen l = true) :
    ∀ i, l.get? i = some ExportEvent.persist →
      seen = true ∨ ∃ j, j < i ∧ l.get? j = some ExportEvent.validate := by
  induction l generalizing seen with
  | nil => intro i hi; simp at hi
  | cons e rest ih =>
    intro i hi
    cases e with
    | validate =>
      cases i with
      | zero => simp at hi
      | succ i =>
        rcases ih true h i hi with h1 | ⟨j, hj, hj2⟩
        · exact Or.inr ⟨0, Nat.succ_pos _, rfl⟩
        · exact Or.inr ⟨j + 1, Nat.succ_lt_succ hj, hj2⟩
    | persist =>
      have hseen : seen = true := by
        cases seen
        · simp [checkValidatedBefore] at h
        · rfl
      subst hseen
      cases i with
      | zero => exact Or.inl rfl
      | succ i =>
        have h' : checkValidatedBefore true rest = true := by
          simpa [checkValidatedBefore] using h
        rcases ih true h' i hi with h1 | ⟨j, hj, hj2⟩
        · exact Or.inl rfl
        · exact Or.inr ⟨j + 1, Nat.succ_lt_succ hj, hj2⟩
    | loadModel =>
      cases i with
      | zero => simp at hi
      | succ i =>
        rcases ih seen h i hi with h1 | ⟨j, hj, hj2⟩
        · exact Or.inl h1
        · exact Or.inr ⟨j + 1, Nat.succ_lt_succ hj, hj2⟩
    | defineSchema =>
      cases i with
      | zero => simp at hi
      | succ i =>
        rcases ih seen h i hi with h1 | ⟨j, hj, hj2⟩
        · exact Or.inl h1
        · exact Or.inr ⟨j + 1, Nat.succ_lt_succ hj, hj2⟩
    | convert =>
      cases i with
      | zero => simp at hi
      | succ i =>
        rcases ih seen h i hi with h1 | ⟨j, hj, hj2⟩
        · exact Or.inl h1
        · exact Or.inr ⟨j + 1, Nat.succ_lt_succ hj, hj2⟩
    | warn =>
      cases i with
      | zero => simp at hi
      | succ i =>
        rcases ih seen h i hi with h1 | ⟨j, hj, hj2⟩
        · exact Or.inl h1
        · exact Or.inr ⟨j + 1, Nat.succ_lt_succ hj, hj2⟩
    | document =>
      cases i with
      | zero => simp at hi
      | succ i =>
        rcases ih seen h i hi with h1 | ⟨j, hj, hj2⟩
        · exact Or.inl h1
        · exact Or.inr ⟨j + 1, Nat.succ_lt_succ hj, hj2⟩
    | summarize =>
      cases i with
      | zero => simp at hi
      | succ i =>
        rcases ih seen h i hi with h1 | ⟨j, hj, hj2⟩
        · exact Or.inl h1
        · exact Or.inr ⟨j + 1, Nat.succ_lt_succ hj, hj2⟩

/-- C1: in every run of either export pipeline, the numeric-parity
validation occurs in the trace, and every write of the ONNX model to disk
is preceded by the validation — whether or not the validation succeeds. -/
theorem export_validates_before_persist (testOk : Bool) (i : ℕ) :
    ExportEvent.validate ∈ export_onnx_main_trace testOk ∧
    ExportEvent.validate ∈ export_to_onnx_trace ∧
    ((export_onnx_main_trace testOk).get? i = some ExportEvent.persist →
      ∃ j, j < i ∧
        (export_onnx_main_trace testOk).get? j = some ExportEvent.validate) ∧
    (export_to_onnx_trace.get? i = some ExportEvent.persist →
      ∃ j, j < i ∧ export_to_onnx_trace.get? j = some ExportEvent.validate) := by
  refine ⟨by cases testOk <;> decide, by decide, fun h => ?_, fun h => ?_⟩
  · have hc : checkValidatedBefore false (export_onnx_main_trace testOk) = true := by
      cases testOk <;> decide
    rcases checkValidatedBefore_sound _ false hc i h with h1 | h2
    · exact absurd h1 (by decide)
    · exact h2
  · have hc : checkValidatedBefore false export_to_onnx_trace = true := by decide
    rcases checkValidatedBefore_sound _ false hc i h with h1 | h2
    · exact absurd h1 (by decide)
    · exact h2

/-- C1 witness: in the successful run, `persist` sits at index 4 of the
trace and the theorem produces a preceding `validate`. -/
theorem export_validates_before_persist_witness :
    ∃ j, j < 4 ∧
      (export_onnx_main_trace true).get? j = some ExportEvent.validate :=
  (export_validates_before_persist true 4).2.2.1 rfl

/-! ### The data loader (train_model.load_and_prepare_data,
explore_data.load_data) -/

/-- A row of the Kaggle CSV as train_model.py uses it: the non-`Class`
columns (Time, V1..V28, Amount) and the `Class` label. -/
structure KaggleRow where
  features : List ℚ
  cls : ℕ
deriving DecidableEq

/-- `pd.read_csv(DATA_PATH)`: the filesystem is abstracted to the optional
content of the file at the fixed path `data/creditcard.csv`; pandas raises
`FileNotFoundError` when the file is absent. -/
def read_csv (file : Option (List KaggleRow)) : Except String (List KaggleRow) :=
  match file with
  | none => Except.error "FileNotFoundError"
  | some df => Except.ok df

/-- `load_and_prepare_data` (train_model.py lines 46-60): read the CSV at
the fixed path and split it into the feature table `X = df.drop(['Class'])`
and the label column `y = df['Class']`. -/
def load_and_prepare_data (file : Option (List KaggleRow)) :
    Except String (List (List ℚ) × List ℕ) :=
  match read_csv file with
  | Except.error e => Except.error e
  | Except.ok df => Except.ok (df.map (·.features), df.map (·.cls))

/-- `load_data` (explore_data.py lines 20-35): check that the fixed path
exists; when it does not, report the failure and return `None` instead of a
table, which makes `explore_data.main` stop. -/
def load_data (file : Option (List KaggleRow)) : Option (List KaggleRow) :=
  match file with
  | none => none
  | some df => some df

/-- C5: when the dataset file at the fixed path is absent, both loaders
signal failure rather than returning a table — `load_and_prepare_data`
propagates pandas' `FileNotFoundError` and `load_data` returns `None`;
when the file is present both return its table. -/
theorem load_fails_when_dataset_absent (file : Option (List KaggleRow)) :
    (file = none →
      load_and_prepare_data file = Except.error "FileNotFoundError" ∧
      load_data file = none) ∧
    (∀ df, file = some df →
      load_and_prepare_data file =
        Except.ok (df.map (·.features), df.map (·.cls)) ∧
      load_data file = some df) := by
  constructor
  · rintro rfl
    exact ⟨rfl, rfl⟩
  · rintro df rfl
    exact ⟨rfl, rfl⟩

/-- C5 witness: the loaders at the empty filesystem and at a one-row file. -/
theorem load_fails_when_dataset_absent_witness :
    load_and_prepare_data none = Except.error "FileNotFoundError" ∧
    load_data (some [KaggleRow.mk [0, 100] 1]) = some [KaggleRow.mk [0, 100] 1] :=
  ⟨((load_fails_when_dataset_absent none).1 rfl).1,
    ((load_fails_when_dataset_absent (some [KaggleRow.mk [0, 100] 1])).2
      [KaggleRow.mk [0, 100] 1] rfl).2⟩

/-! ### The evaluator's confusion-matrix metrics
(train_model.evaluate_model lines 161-176,
train_custom_features.evaluate_model lines 173-186) -/

/-- True-negative count of `confusion_matrix(y_test, y_pred).ravel()`. -/
def tnOf (yTrue yPred : List Bool) : ℕ :=
  ((yTrue.zip yPred).filter fun p => !p.1 && !p.2).length

/-- False-positive count. -/
def fpOf (yTrue yPred : List Bool) : ℕ :=
  ((yTrue.zip yPred).filter fun p => !p.1 && p.2).length

/-- False-negative count. -/
def fnOf (yTrue yPred : List Bool) : ℕ :=
  ((yTrue.zip yPred).filter fun p => p.1 && !p.2).length

/-- True-positive count. -/
def tpOf (yTrue yPred : List Bool) : ℕ :=
  ((yTrue.zip yPred).filter fun p => p.1 && p.2).length

/-- Division with its division-by-zero branch made explicit. -/
def safeDiv (a b : ℚ) : Option ℚ := if b = 0 then none else some (a / b)

/-- `train_model.evaluate_model` lines 168-171: the unguarded metric
computation `precision = tp/(tp+fp)`, `recall = tp/(tp+fn)`,
`f1 = 2*(precision*recall)/(precision+recall)`, with each division routed
through `safeDiv` so that a zero divisor is the `none` branch. -/
def metrics_unguarded (tn fp fn tp : ℕ) : Option (ℚ × ℚ × ℚ) :=
  let _ := tn
  match safeDiv (tp : ℚ) ((tp : ℚ) + (fp : ℚ)) with
  | none => none
  | some p =>
    match safeDiv (tp : ℚ) ((tp : ℚ) + (fn : ℚ)) with
    | none => none
    | some r =>
      match safeDiv (2 * (p * r)) (p + r) with
      | none => none
      | some f => some (p, r, f)

/-- `train_custom_features.evaluate_model` lines 176-178: the same metrics
but with each division guarded, falling back to `0` on a zero divisor. -/
def metrics_guarded (tn fp fn tp : ℕ) : ℚ × ℚ × ℚ :=
  let _ := tn
  let p : ℚ := if 0 < tp + fp then (tp : ℚ) / ((tp : ℚ) + (fp : ℚ)) else 0
  let r : ℚ := if 0 < tp + fn then (tp : ℚ) / ((tp : ℚ) + (fn : ℚ)) else 0
  let f : ℚ := if 0 < p + r then 2 * (p * r) / (p + r) else 0
  (p, r, f)

/-- The unguarded evaluator applied to a held-out partition's labels and
predictions. -/
def evaluate_model_divisions (yTrue yPred : List Bool) : Option (ℚ × ℚ × ℚ) :=
  metrics_unguarded (tnOf yTrue yPred) (fpOf yTrue yPred)
    (fnOf yTrue yPred) (tpOf yTrue yPred)

theorem metrics_unguarded_isSome_iff (tn fp fn tp : ℕ) :
    (metrics_unguarded tn fp fn tp).isSome = true ↔ 0 < tp := by
  rcases Nat.eq_zero_or_pos tp with htp | htp
  · subst htp
    simp only [metrics_unguarded, safeDiv, Nat.cast_zero, zero_div, zero_add]
    rcases Nat.eq_zero_or_pos fp with hfp | hfp
    · subst hfp; norm_num
    · have hfpq : (0 : ℚ) < fp := by exact_mod_cast hfp
      rw [if_neg (ne_of_gt hfpq)]
      rcases Nat.eq_zero_or_pos fn with hfn | hfn
      · subst hfn; norm_num
      · have hfnq : (0 : ℚ) < fn := by exact_mod_cast hfn
        rw [if_neg (ne_of_gt hfnq)]
        norm_num
  · have htpq : (0 : ℚ) < tp := by exact_mod_cast htp
    have hfpq : (0 : ℚ) ≤ fp := Nat.cast_nonneg fp
    have hfnq : (0 : ℚ) ≤ fn := Nat.cast_nonneg fn
    have h1 : (tp : ℚ) + fp ≠ 0 := ne_of_gt (by linarith)
    have h2 : (tp : ℚ) + fn ≠ 0 := ne_of_gt (by linarith)
    have hprec : 0 < (tp : ℚ) / ((tp : ℚ) + fp) := div_pos htpq (by linarith)
    have hrec : 0 < (tp : ℚ) / ((tp : ℚ) + fn) := div_pos htpq (by linarith)
    have h3 : (tp : ℚ) / ((tp : ℚ) + fp) + (tp : ℚ) / ((tp : ℚ) + fn) ≠ 0 :=
      ne_of_gt (add_pos hprec hrec)
    simp [metrics_unguarded, safeDiv, h1, h2, h3, htp]

/-- C6 amended: the unguarded divisions of `train_model.evaluate_model` are
well-defined exactly when the held-out partition yields at least one true
positive; with no true positive some divisor vanishes and the
division-by-zero branch of the embedding is reached. -/
theorem evaluate_divisions_defined_iff_tp_pos (yTrue yPred : List Bool) :
    (evaluate_model_divisions yTrue yPred).isSome = true ↔
      0 < tpOf yTrue yPred :=
  metrics_unguarded_isSome_iff _ _ _ _

/-- C6 counterexample: on the held-out labels `[0, 1]` with predictions
`[0, 0]` (a classifier that flags nothing), `tp + fp = 0`, so the precision
division of the unguarded evaluator divides by zero and the
division-by-zero branch is reached. -/
theorem evaluate_division_by_zero_example :
    tpOf [false, true] [false, false] + fpOf [false, true] [false, false] = 0 ∧
    evaluate_model_divisions [false, true] [false, false] = none := by
  constructor
  · decide
  · with_unfolding_all decide

/-- C7: on every confusion matrix whose three divisors are positive, the
guarded metric computation of `train_custom_features.evaluate_model` and
the unguarded one of `train_model.evaluate_model` return identical
precision, recall and F1. -/
theorem guarded_unguarded_metrics_agree (tn fp fn tp : ℕ)
    (h1 : 0 < tp + fp) (h2 : 0 < tp + fn)
    (h3 : 0 < (tp : ℚ) / ((tp : ℚ) + (fp : ℚ)) + (tp : ℚ) / ((tp : ℚ) + (fn : ℚ))) :
    metrics_unguarded tn fp fn tp = some (metrics_guarded tn fp fn tp) := by
  have h1q : (0 : ℚ) < (tp : ℚ) + fp := by exact_mod_cast h1
  have h2q : (0 : ℚ) < (tp : ℚ) + fn := by exact_mod_cast h2
  simp [metrics_unguarded, metrics_guarded, safeDiv, h1, h2, h3,
    ne_of_gt h1q, ne_of_gt h2q, ne_of_gt h3]

/-- C7 witness: the two evaluators agree on the confusion matrix
`(tn, fp, fn, tp) = (1, 1, 1, 1)`. -/
theorem guarded_unguarded_metrics_agree_witness :
    metrics_unguarded 1 1 1 1 = some (metrics_guarded 1 1 1 1) :=
  guarded_unguarded_metrics_agree 1 1 1 1 (by decide) (by decide)
    (by with_unfolding_all decide)

/-! ### The ONNX parity check (export_onnx.test_onnx_model, lines 77-135) -/

/-- `np.abs(sklearn_proba - onnx_proba).max()`. -/
def maxAbsDiff (xs ys : List ℚ) : ℚ :=
  ((xs.zip ys).map fun p => |p.1 - p.2|).foldr max 0

/-- `test_onnx_model` (export_onnx.py lines 77-135), reduced to its returned
value: `pred_match` is `np.array_equal` of the two hard-label vectors,
`proba_diff` the maximum absolute difference of the fraud probabilities;
the function returns `True` on the first branch when both the labels match
and the difference is below `1e-5`, on the second when the difference is
below `1e-3`, and `False` otherwise. -/
def test_onnx_model (skPred onnxPred : List ℕ) (skProba onnxProba : List ℚ) : Bool :=
  if skPred = onnxPred ∧ maxAbsDiff skProba onnxProba < 1 / 100000 then true
  else if maxAbsDiff skProba onnxProba < 1 / 1000 then true
  else false

theorem test_onnx_model_eq_decide (skPred onnxPred : List ℕ)
    (skProba onnxProba : List ℚ) :
    test_onnx_model skPred onnxPred skProba onnxProba =
      decide (maxAbsDiff skProba onnxProba < 1 / 1000) := by
  unfold test_onnx_model
  split_ifs with hA hB
  · have h : maxAbsDiff skProba onnxProba < 1 / 1000 := by
      have := hA.2; linarith
    exact (decide_eq_true h).symm
  · exact (decide_eq_true hB).symm
  · exact (decide_eq_false hB).symm

/-- C9: `test_onnx_model` returns `True` iff the maximum absolute
difference of the fraud probabilities is below `1e-3`; the hard-label
comparison has no effect on the returned value. -/
theorem test_onnx_model_iff_proba_diff_small
    (skPred onnxPred skPred' onnxPred' : List ℕ) (skProba onnxProba : List ℚ) :
    (test_onnx_model skPred onnxPred skProba onnxProba = true ↔
      maxAbsDiff skProba onnxProba < 1 / 1000) ∧
    test_onnx_model skPred onnxPred skProba onnxProba =
      test_onnx_model skPred' onnxPred' skProba onnxProba := by
  constructor
  · rw [test_onnx_model_eq_decide]
    exact decide_eq_true_iff
  · rw [test_onnx_model_eq_decide, test_onnx_model_eq_decide]

/-! ### The splitter (train_model.split_data, lines 63-87) -/

/-- `TEST_SIZE = 0.2` (train_model.py line 33). -/
def TEST_SIZE : ℚ := 1 / 5

/-- `VAL_SIZE = 0.2` (train_model.py line 34). -/
def VAL_SIZE : ℚ := 1 / 5

/-- Modelled from the spec: sklearn's `train_test_split(X, y, test_size=ts,
stratify=y)` is library code, not part of the repository.  Following the
spec's "partitions rows into train/validation/test with stratification on
the label", it partitions the rows by label class and moves each class's
floor share of `ts` into the test part; the first component is the
remainder (train), the second the test part. -/
def train_test_split (ts : ℚ) (rows : List (α × Bool)) :
    List (α × Bool) × List (α × Bool) :=
  let pos := rows.filter fun r => r.2
  let neg := rows.filter fun r => !r.2
  let kp := (⌊(pos.length : ℚ) * ts⌋).toNat
  let kn := (⌊(neg.length : ℚ) * ts⌋).toNat
  (pos.drop kp ++ neg.drop kn, pos.take kp ++ neg.take kn)

/-- The three partitions produced by `train_model.split_data`. -/
structure SplitResult (α : Type) where
  train : List (α × Bool)
  val : List (α × Bool)
  test : List (α × Bool)

/-- `split_data` (train_model.py lines 63-87): first split off the test
part, then split the remainder into train and validation, both splits
stratified on the label. -/
def split_data (rows : List (α × Bool)) : SplitResult α :=
  let s1 := train_test_split TEST_SIZE rows
  let s2 := train_test_split VAL_SIZE s1.1
  ⟨s2.1, s2.2, s1.2⟩

theorem four_segment_perm (a b c d : List α) :
    ((b ++ d) ++ (a ++ c)).Perm ((a ++ b) ++ (c ++ d)) := by
  have h3 : (c ++ (b ++ d)).Perm (b ++ (c ++ d)) := by
    have hA : ((c ++ b) ++ d).Perm ((b ++ c) ++ d) :=
      List.Perm.append_right d List.perm_append_comm
    simpa [List.append_assoc] using hA
  have h2 : ((a ++ c) ++ (b ++ d)).Perm (a ++ (b ++ (c ++ d))) := by
    have h := h3.append_left a
    simpa [List.append_assoc] using h
  have h1 : ((b ++ d) ++ (a ++ c)).Perm ((a ++ c) ++ (b ++ d)) :=
    List.perm_append_comm
  have h := h1.trans h2
  simpa [List.append_assoc] using h

theorem train_test_split_perm (ts : ℚ) (rows : List (α × Bool)) :
    ((train_test_split ts rows).1 ++ (train_test_split ts rows).2).Perm rows := by
  unfold train_test_split
  refine (four_segment_perm _ _ _ _).trans ?_
  rw [List.take_append_drop, List.take_append_drop]
  simpa using List.filter_append_perm (fun r => r.2) rows

theorem floor_share_le (n : ℕ) {ts : ℚ} (h1 : ts ≤ 1) :
    (⌊(n : ℚ) * ts⌋).toNat ≤ n := by
  have hle : (n : ℚ) * ts ≤ (n : ℚ) := by
    calc (n : ℚ) * ts ≤ (n : ℚ) * 1 :=
      mul_le_mul_of_nonneg_left h1 (Nat.cast_nonneg n)
    _ = n := mul_one _
  have : ⌊(n : ℚ) * ts⌋ ≤ (n : ℤ) := by
    refine le_trans (Int.floor_le_floor hle) ?_
    simp
  omega

theorem filter_take_of_filter (p : α → Bool) (l : List α) (k : ℕ) :
    ((l.filter p).take k).filter p = (l.filter p).take k := by
  refine List.filter_eq_self.2 ?_
  intro a ha
  exact List.of_mem_filter (List.mem_of_mem_take ha)

theorem filter_take_of_filter_not (p : α → Bool) (l : List α) (k : ℕ) :
    ((l.filter fun x => !p x).take k).filter p = [] := by
  refine List.filter_eq_nil_iff.2 ?_
  intro a ha
  have h := List.of_mem_filter (List.mem_of_mem_take ha)
  simp at h
  simp [h]

theorem length_filter_test (p : α → Bool) (l : List α) (k k' : ℕ)
    (hk : k ≤ (l.filter p).length) :
    (((l.filter p).take k ++ (l.filter fun x => !p x).take k').filter p).length = k := by
  rw [List.filter_append, filter_take_of_filter, filter_take_of_filter_not,
    List.append_nil, List.length_take]
  exact Nat.min_eq_left hk

theorem length_filter_test_not (p : α → Bool) (l : List α) (k k' : ℕ)
    (hk' : k' ≤ (l.filter fun x => !p x).length) :
    (((l.filter p).take k ++ (l.filter fun x => !p x).take k').filter
      fun x => !p x).length = k' := by
  rw [List.filter_append]
  have h1 : ((l.filter p).take k).filter (fun x => !p x) = [] := by
    refine List.filter_eq_nil_iff.2 ?_
    intro a ha
    have h := List.of_mem_filter (List.mem_of_mem_take ha)
    simp [h]
  have h2 : ((l.filter fun x => !p x).take k').filter (fun x => !p x) =
      (l.filter fun x => !p x).take k' :=
    filter_take_of_filter (fun x => !p x) l k'
  rw [h1, h2, List.nil_append, List.length_take]
  exact Nat.min_eq_left hk'

theorem train_test_split_test_counts (ts : ℚ) (h1 : ts ≤ 1)
    (rows : List (α × Bool)) :
    (((train_test_split ts rows).2.filter fun r => r.2).length =
      (⌊((rows.filter fun r => r.2).length : ℚ) * ts⌋).toNat) ∧
    (((train_test_split ts rows).2.filter fun r => !r.2).length =
      (⌊((rows.filter fun r => !r.2).length : ℚ) * ts⌋).toNat) := by
  constructor
  · exact length_filter_test (fun r => r.2) rows _ _ (floor_share_le _ h1)
  · exact length_filter_test_not (fun r => r.2) rows _ _ (floor_share_le _ h1)

/-- C3 amended: `split_data` partitions the rows — the concatenation of the
train, validation and test parts is a permutation of the input (so the
parts are disjoint as index sets and jointly exhaustive) — and the splits
are stratified on the label: the test part receives each label class's
floor share of `TEST_SIZE`, and the validation part each class's floor
share of `VAL_SIZE` of the remainder.  The label ratio of each part is
only approximately, not exactly, that of the whole. -/
theorem split_data_partitions (rows : List (α × Bool)) :
    ((split_data rows).train ++ (split_data rows).val ++ (split_data rows).test).Perm
      rows ∧
    (((split_data rows).test.filter fun r => r.2).length =
      (⌊((rows.filter fun r => r.2).length : ℚ) * TEST_SIZE⌋).toNat) ∧
    (((split_data rows).test.filter fun r => !r.2).length =
      (⌊((rows.filter fun r => !r.2).length : ℚ) * TEST_SIZE⌋).toNat) ∧
    (((split_data rows).val.filter fun r => r.2).length =
      (⌊(((train_test_split TEST_SIZE rows).1.filter fun r => r.2).length : ℚ) *
        VAL_SIZE⌋).toNat) ∧
    (((split_data rows).val.filter fun r => !r.2).length =
      (⌊(((train_test_split TEST_SIZE rows).1.filter fun r => !r.2).length : ℚ) *
        VAL_SIZE⌋).toNat) := by
  have hts1 : TEST_SIZE ≤ 1 := by norm_num [TEST_SIZE]
  have hvs1 : VAL_SIZE ≤ 1 := by norm_num [VAL_SIZE]
  refine ⟨?_, (train_test_split_test_counts TEST_SIZE hts1 rows).1,
    (train_test_split_test_counts TEST_SIZE hts1 rows).2,
    (train_test_split_test_counts VAL_SIZE hvs1 _).1,
    (train_test_split_test_counts VAL_SIZE hvs1 _).2⟩
  simp only [split_data]
  have h2 : ((train_test_split VAL_SIZE (train_test_split TEST_SIZE rows).1).1 ++
      (train_test_split VAL_SIZE (train_test_split TEST_SIZE rows).1).2).Perm
      (train_test_split TEST_SIZE rows).1 :=
    train_test_split_perm VAL_SIZE _
  have h1 := train_test_split_perm TEST_SIZE rows
  have h3 := (h2.append_right (train_test_split TEST_SIZE rows).2).trans h1
  simpa [List.append_assoc] using h3

/-- C3 counterexample: on a 10-row dataset with 1 fraud, the whole's fraud
ratio is 1/10 but the test part's is 0 — no part of `TEST_SIZE = 0.2` of
these rows can have fraud ratio exactly 1/10, so the splitter does not
preserve the label ratio exactly. -/
theorem split_data_ratio_counterexample :
    (((split_data [((0 : ℕ), true), (1, false), (2, false), (3, false), (4, false),
        (5, false), (6, false), (7, false), (8, false), (9, false)]).test.filter
          fun r => r.2).length : ℚ) /
      ((split_data [((0 : ℕ), true), (1, false), (2, false), (3, false), (4, false),
        (5, false), (6, false), (7, false), (8, false), (9, false)]).test.length : ℚ) ≠
    (((([((0 : ℕ), true), (1, false), (2, false), (3, false), (4, false),
        (5, false), (6, false), (7, false), (8, false), (9, false)] :
          List (ℕ × Bool)).filter fun r => r.2).length : ℚ) / 10) := by
  with_unfolding_all decide

/-! ### The balancer and its frame (train_model.apply_smote lines 90-108,
train_model.main lines 281-304) -/

/-- Elementwise midpoint of two feature vectors: one concrete interpolation
point between two neighbours. -/
def midpointVec (a b : List ℚ) : List ℚ := List.zipWith (fun x y => (x + y) / 2) a b

/-- Modelled from the spec: imblearn's `SMOTE` is library code, not part of
the repository.  Following the spec's "oversamples the minority class …
via synthetic interpolation between minority-class nearest neighbors", the
synthetic samples are interpolations between neighbouring minority-class
samples, labelled with the minority label, as many as are needed to bring
the class counts to parity. -/
def smote_synthetic (rows : List (List ℚ × Bool)) : List (List ℚ × Bool) :=
  let pos := rows.filter fun r => r.2
  let neg := rows.filter fun r => !r.2
  let minority := if pos.length ≤ neg.length then pos.map (·.1) else neg.map (·.1)
  let lbl := if pos.length ≤ neg.length then true else false
  let k := max pos.length neg.length - min pos.length neg.length
  (List.range k).map fun i =>
    (midpointVec (minority.getD (i % max minority.length 1) [])
      (minority.getD ((i + 1) % max minority.length 1) []), lbl)

/-- Modelled from the spec: `SMOTE.fit_resample` returns the original
samples followed by the synthetic minority samples. -/
def fit_resample (rows : List (List ℚ × Bool)) : List (List ℚ × Bool) :=
  rows ++ smote_synthetic rows

/-- `apply_smote` (train_model.py lines 90-108): balance the training
partition with `SMOTE(random_state=RANDOM_STATE).fit_resample`. -/
def apply_smote (train : List (List ℚ × Bool)) : List (List ℚ × Bool) :=
  fit_resample train

/-- The partitions held by `train_model.main` between its stages. -/
structure PipelineData where
  train : List (List ℚ × Bool)
  val : List (List ℚ × Bool)
  test : List (List ℚ × Bool)

/-- `train_model.main` after stage [2/7]: the splitter's three partitions. -/
def pipeline_after_split (rows : List (List ℚ × Bool)) : PipelineData :=
  let s := split_data rows
  ⟨s.train, s.val, s.test⟩

/-- `train_model.main` after stage [3/7]: only the training partition is
rebound, to `apply_smote(X_train, y_train)`; the validation and test
partitions are passed through untouched (lines 292, 298). -/
def pipeline_after_smote (rows : List (List ℚ × Bool)) : PipelineData :=
  let st := pipeline_after_split rows
  { st with train := apply_smote st.train }

/-- C4: after the balancer runs, the validation and test partitions are
exactly the splitter's, and the training partition is the splitter's
training partition extended by the synthetic rows — it can only gain
rows. -/
theorem apply_smote_frame (rows : List (List ℚ × Bool)) :
    (pipeline_after_smote rows).val = (split_data rows).val ∧
    (pipeline_after_smote rows).test = (split_data rows).test ∧
    (∃ extra, (pipeline_after_smote rows).train = (split_data rows).train ++ extra) ∧
    (split_data rows).train.length ≤ (pipeline_after_smote rows).train.length := by
  refine ⟨rfl, rfl, ⟨smote_synthetic (split_data rows).train, rfl⟩, ?_⟩
  show (split_data rows).train.length ≤ (apply_smote (split_data rows).train).length
  unfold apply_smote fit_resample
  rw [List.length_append]
  exact Nat.le_add_right _ _

end FraudDetector
